import Mathlib

/-!
Verification of the concurrency core of zoom-os against its specification.

The Rust sources are shallowly embedded as pure Lean functions:
machine integers (`usize`, `u64`) become `Nat` with explicit `% 2 ^ 64`
where wrapping matters, atomics become explicit state passing (the kernel
is single-core; an operation of the embedded API is one atomic step of the
trace semantics), and fallible operations return `Option`.
-/

namespace ZoomOS

/-! ## Mutex (src/kernel/src/util/async/mutex.rs)

`Mutex<T>` holds `locked: AtomicBool` plus a payload `inner: UnsafeCell<T>`
(the `wakeup_list` is modelled only through the notification event a guard
drop emits; its internals are irrelevant to the claims about `Mutex`).
-/

structure MutexState (α : Type) where
  locked : Bool
  inner : α
deriving DecidableEq

/-- Embeds `Mutex::try_lock`.  The source loads `locked`; if set it returns
`None`; otherwise it attempts `compare_exchange_weak(false, true)`, which may
fail spuriously — the oracle `casOk` decides that attempt — and on failure
returns `None` via `.ok()?` leaving the state untouched.  On success the
returned guard's exclusive access to the payload is modelled by returning the
payload value. -/
def Mutex.tryLock (s : MutexState α) (casOk : Bool) : Option α × MutexState α :=
  if s.locked then (none, s)
  else if casOk then (some s.inner, { s with locked := true })
  else (none, s)

/-- Micro-events emitted by `MutexGuard::drop`: the order of the store to
`locked` and the call to `notify_one` is observable and part of the spec. -/
inductive MicroEv : Type
  | setUnlocked
  | notifyOne
deriving DecidableEq

/-- Embeds the state effect of `MutexGuard::drop`:
`self.locked.store(false); self.waker_list.notify_one()`. -/
def MutexGuard.drop (s : MutexState α) : MutexState α :=
  { s with locked := false }

/-- The ordered micro-event trace of `MutexGuard::drop`: the store of
`false` to `locked` happens strictly before the single notification. -/
def MutexGuard.dropEvents : List MicroEv :=
  [MicroEv.setUnlocked, MicroEv.notifyOne]

/-! Trace semantics for sequences of mutex operations.  `lock()` and
`spin_lock()` both loop over `try_lock()` and their successful acquisition is
a successful `try_lock` step, so a sequence of `try_lock`/`lock`/`spin_lock`/
guard-drop operations is a sequence of `tryLockOp`/`dropOp` steps.  The
`guards` field is the live-guard counter the specification proposes
(incremented on guard creation, decremented on drop). -/

inductive MutexOp : Type
  | tryLockOp (casOk : Bool)
  | dropOp
deriving DecidableEq

structure MutexTrace (α : Type) where
  ms : MutexState α
  guards : Nat
deriving DecidableEq

def stepOp (s : MutexTrace α) : MutexOp → MutexTrace α
  | .tryLockOp c =>
    let r := Mutex.tryLock s.ms c
    { ms := r.2, guards := s.guards + (if r.1.isSome then 1 else 0) }
  | .dropOp =>
    { ms := MutexGuard.drop s.ms, guards := s.guards - 1 }

def runOps (s : MutexTrace α) (ops : List MutexOp) : MutexTrace α :=
  ops.foldl stepOp s

/-- A drop step can only be performed on a live guard (Rust ownership:
`drop` consumes an existing `MutexGuard`). -/
def validFrom (s : MutexTrace α) : List MutexOp → Bool
  | [] => true
  | op :: rest =>
    (if op = MutexOp.dropOp then decide (0 < s.guards) else true)
      && validFrom (stepOp s op) rest

def mutexInit (a : α) : MutexTrace α :=
  { ms := { locked := false, inner := a }, guards := 0 }

def mutexInv (s : MutexTrace α) : Prop :=
  s.guards ≤ 1 ∧ (s.guards = 1 ↔ s.ms.locked = true)

theorem mutexInv_step (s : MutexTrace α) (op : MutexOp)
    (hinv : mutexInv s) (hvalid : op = MutexOp.dropOp → 0 < s.guards) :
    mutexInv (stepOp s op) := by
  obtain ⟨h1, h2⟩ := hinv
  cases op with
  | tryLockOp c =>
    rcases s with ⟨⟨l, i⟩, g⟩
    have h1' : g ≤ 1 := h1
    cases l with
    | false =>
      have h2' : g ≠ 1 := by
        intro hg
        have := h2.mp hg
        simp at this
      cases c with
      | false =>
        simp [stepOp, Mutex.tryLock, mutexInv]
        exact ⟨h1', h2'⟩
      | true =>
        have hg : g = 0 := by omega
        simp [stepOp, Mutex.tryLock, mutexInv, hg]
    | true =>
      have h2' : g = 1 := h2.mpr rfl
      simp [stepOp, Mutex.tryLock, mutexInv]
      exact ⟨h1', h2'⟩
  | dropOp =>
    have hg : s.guards = 1 := le_antisymm h1 (hvalid rfl)
    simp [stepOp, MutexGuard.drop, mutexInv, hg]

theorem mutexInv_run (ops : List MutexOp) :
    ∀ (s : MutexTrace α), mutexInv s → validFrom s ops = true →
      mutexInv (runOps s ops) := by
  induction ops with
  | nil => intro s h _; simpa [runOps] using h
  | cons op rest ih =>
    intro s h hv
    simp only [validFrom, Bool.and_eq_true] at hv
    obtain ⟨hv1, hv2⟩ := hv
    have hstep : mutexInv (stepOp s op) := by
      refine mutexInv_step s op h ?_
      intro hop
      subst hop
      simpa using hv1
    simpa [runOps, List.foldl_cons] using ih (stepOp s op) hstep hv2

/-- C3: for every valid sequence of mutex operations (`try_lock`, `lock`,
`spin_lock`, guard drop) from the unlocked initial state, at most one guard
is live, a guard is live exactly when the `locked` flag is `true`, and guard
destruction stores `locked = false` strictly before its single
notification. -/
theorem mutex_at_most_one_guard (a : α) (ops : List MutexOp)
    (h : validFrom (mutexInit a) ops = true) :
    (runOps (mutexInit a) ops).guards ≤ 1 ∧
      ((runOps (mutexInit a) ops).guards = 1 ↔
        (runOps (mutexInit a) ops).ms.locked = true) ∧
      MutexGuard.dropEvents = [MicroEv.setUnlocked, MicroEv.notifyOne] := by
  have hinit : mutexInv (mutexInit a) := by simp [mutexInit, mutexInv]
  have := mutexInv_run ops (mutexInit a) hinit h
  exact ⟨this.1, this.2, rfl⟩

theorem mutex_at_most_one_guard_witness :
    validFrom (mutexInit 0)
        [MutexOp.tryLockOp true, MutexOp.dropOp, MutexOp.tryLockOp false] = true ∧
      ((runOps (mutexInit 0)
          [MutexOp.tryLockOp true, MutexOp.dropOp, MutexOp.tryLockOp false]).guards ≤ 1 ∧
        ((runOps (mutexInit 0)
            [MutexOp.tryLockOp true, MutexOp.dropOp, MutexOp.tryLockOp false]).guards = 1 ↔
          (runOps (mutexInit 0)
            [MutexOp.tryLockOp true, MutexOp.dropOp, MutexOp.tryLockOp false]).ms.locked = true) ∧
        MutexGuard.dropEvents = [MicroEv.setUnlocked, MicroEv.notifyOne]) :=
  ⟨by decide, mutex_at_most_one_guard 0
    [MutexOp.tryLockOp true, MutexOp.dropOp, MutexOp.tryLockOp false] (by decide)⟩

/-- C7: `Mutex::try_lock` returns nothing when the `locked` flag is already
set or when the compare-and-swap fails, returns a guard exactly when the
compare-and-swap succeeds, leaves the state (flag and payload) unchanged on
every failing call, and sets the flag on success. -/
theorem try_lock_contract (s : MutexState α) (casOk : Bool) :
    ((Mutex.tryLock s casOk).1.isSome = true ↔ (s.locked = false ∧ casOk = true)) ∧
      ((Mutex.tryLock s casOk).1 = none → (Mutex.tryLock s casOk).2 = s) ∧
      ((Mutex.tryLock s casOk).1.isSome = true →
        (Mutex.tryLock s casOk).2 = { s with locked := true }) := by
  rcases s with ⟨l, i⟩
  cases l <;> cases casOk <;> simp [Mutex.tryLock]

/-! ## IntMutex (src/kernel/src/util/async/mutex.rs, lines 177-301)

`IntMutex<T>` wraps `Mutex<T>`; the hardware interrupt-enable flag (RFLAGS
IF, read by `interrupts::are_enabled`, cleared by `interrupts::disable`, set
by `interrupts::enable`) becomes the `intEnabled` field of the state.  The
kernel is single-core, so between the explicit state updates of one embedded
operation nothing else mutates the flag. -/

structure IntState (α : Type) where
  mutex : MutexState α
  intEnabled : Bool
deriving DecidableEq

/-- Guard `IntMutexGuard(mg, bool)`: the second field is the value of
`interrupts::are_enabled()` sampled when the guard is constructed inside
`IntMutex::try_lock`'s `.map` closure. -/
structure IntGuard where
  savedIntState : Bool
deriving DecidableEq

/-- Embeds `IntMutex::try_lock`: read `are_enabled` into `enabled`; if
enabled, disable interrupts; run the inner `Mutex::try_lock`; on success wrap
the guard together with `are_enabled()` sampled *now* (after the disable); on
failure re-enable interrupts when they had been enabled. -/
def IntMutex.tryLock (s : IntState α) (casOk : Bool) : Option IntGuard × IntState α :=
  let enabled := s.intEnabled
  let s1 : IntState α := if enabled then { s with intEnabled := false } else s
  let r := Mutex.tryLock s1.mutex casOk
  let s2 : IntState α := { s1 with mutex := r.2 }
  match r.1 with
  | some _ => (some { savedIntState := s2.intEnabled }, s2)
  | none => (none, if enabled then { s2 with intEnabled := true } else s2)

/-- Embeds dropping an `IntMutexGuard`: `Drop::drop` runs first (`if self.1
{ interrupts::enable() }`), then the inner `MutexGuard` field is dropped
(store `locked = false`, notify). -/
def IntGuard.drop (g : IntGuard) (s : IntState α) : IntState α :=
  let s1 : IntState α := if g.savedIntState then { s with intEnabled := true } else s
  { s1 with mutex := MutexGuard.drop s1.mutex }

/-- The failing input: an unlocked `IntMutex` acquired while hardware
interrupts are enabled, with a succeeding compare-and-swap. -/
def intEnabledUnlocked : IntState Nat :=
  { mutex := { locked := false, inner := 0 }, intEnabled := true }

/-- C1: evaluating the code at the failing input.  Acquiring an unlocked
`IntMutex` while interrupts are enabled yields a guard whose saved flag is
the post-disable value `false` (not the recorded pre-disable `true`), so
dropping the guard leaves interrupts disabled instead of re-enabling them.
`lock` and `spin_lock` construct their guards through this same `try_lock`. -/
theorem int_mutex_guard_drop_leaves_interrupts_disabled :
    (IntMutex.tryLock intEnabledUnlocked true).1 = some { savedIntState := false } ∧
      (IntGuard.drop { savedIntState := false }
        (IntMutex.tryLock intEnabledUnlocked true).2).intEnabled = false ∧
      (IntGuard.drop { savedIntState := false }
        (IntMutex.tryLock intEnabledUnlocked true).2).mutex.locked = false := by
  decide

/-! ## Sleep timer service (src/kernel/src/util/async/sleep_future.rs)

The registry `WAKEUP_SERVICE : Mutex<BTreeMap<Reverse<usize>, SmallVec<[Waker; 5]>>>`
is embedded as an association list in the map's iteration order: ascending by
`Reverse` key, i.e. strictly descending by target tick.  Wakers are abstract
identifiers; waking appends the identifier to the output list. -/

abbrev WakerId := Nat

abbrev SleepRegistry := List (Nat × List WakerId)

/-- Split `BTreeMap::split_off(&Reverse(tick))` keeps the keys strictly below
`Reverse(tick)` (target ticks strictly above `tick`) and returns the keys at
or above it (target ticks at or below `tick`); on the descending-by-tick
iteration order both parts keep their relative order, so the split is the
corresponding pair of filters. -/
def splitOffDue (reg : SleepRegistry) (tick : Nat) : SleepRegistry × SleepRegistry :=
  (reg.filter (fun e => decide (tick < e.1)), reg.filter (fun e => decide (e.1 ≤ tick)))

/-- The fall-through path of `wake_sleep`: split off everything due and wake
every waker of the split-off entries, in iteration order. -/
def wakeSleepGo (reg : SleepRegistry) (tick : Nat) : SleepRegistry × List WakerId :=
  ((splitOffDue reg tick).1, ((splitOffDue reg tick).2.map Prod.snd).flatten)

/-- Embeds `wake_sleep` (the registry lock is assumed granted, as the source
demands via `.expect`): if the registry's first key-value pair exists and its
tick `time.0` exceeds `tick`, return early touching nothing; otherwise split
off and wake the due entries.  `first_key_value` yields the minimum
`Reverse` key, which is the head of the descending-by-tick iteration
order. -/
def wakeSleep (reg : SleepRegistry) (tick : Nat) : SleepRegistry × List WakerId :=
  match reg.head? with
  | some (time, _) => if time > tick then (reg, []) else wakeSleepGo reg tick
  | none => wakeSleepGo reg tick

/-- C2: evaluating the code at the failing input.  With registry entries at
target ticks 10 and 2 (iteration order descending), `wake_sleep 5` consults
`first_key_value` — the entry with the *largest* tick, 10 — finds `10 > 5`
and returns early, so the due entry at tick 2 (`2 ≤ 5`) is neither removed
nor woken. -/
theorem wake_sleep_early_return_skips_due_entry :
    wakeSleep [(10, [0]), (2, [1])] 5 = ([(10, [0]), (2, [1])], []) ∧
      (2, [1]) ∈ [(10, ([0] : List WakerId)), (2, [1])] ∧ 2 ≤ 5 := by
  decide

/-! ## Clock interrupt handler (src/kernel/src/interrupts.rs, lines 148-153) -/

def USIZE_MOD : Nat := 2 ^ 64

structure ClockState where
  monotonic : Nat
  registry : SleepRegistry
deriving DecidableEq

structure ClockOut where
  state : ClockState
  passedTick : Nat
  wakes : List WakerId
deriving DecidableEq

/-- Embeds `clock_interrupt_handler`: `MONOTONIC_TIME.fetch_add(1)` returns
the previous counter value and leaves the counter at that value plus one
(wrapping at the `usize` width); `wake_sleep` is then called with the
returned — pre-increment — value.  `passedTick` records the argument given
to `wake_sleep`. -/
def clockInterruptHandler (s : ClockState) : ClockOut :=
  let currTime := s.monotonic
  let mono' := (s.monotonic + 1) % USIZE_MOD
  let r := wakeSleep s.registry currTime
  { state := { monotonic := mono', registry := r.1 }, passedTick := currTime, wakes := r.2 }

/-- C4: evaluating the code at the failing input.  From counter 7 with
registry entries at ticks 10 and 5, the handler passes the pre-increment
value 7 (not the post-increment 8) to `wake_sleep`, and `wake_sleep`
early-returns because the first registry key is the largest tick (10 > 7),
so the entry at tick 5 — due under the claim since `5 ≤ 8` — is neither
removed nor woken. -/
theorem clock_handler_at_failing_input :
    clockInterruptHandler { monotonic := 7, registry := [(10, [2]), (5, [1])] } =
      { state := { monotonic := 8, registry := [(10, [2]), (5, [1])] },
        passedTick := 7, wakes := [] } ∧
      (5 : Nat) ≤ 8 ∧ (7 : Nat) ≠ 8 := by
  decide

/-- The condition of `wake_sleep`'s early-return guard: the registry's first
key-value pair exists and its target tick exceeds the passed tick.  Because
the iteration order is descending by tick, the first key carries the
*largest* registered target tick. -/
def earlyReturnFires (reg : SleepRegistry) (tick : Nat) : Prop :=
  ∃ p, reg.head? = some p ∧ tick < p.1

instance (reg : SleepRegistry) (tick : Nat) : Decidable (earlyReturnFires reg tick) := by
  unfold earlyReturnFires
  cases reg.head? with
  | none => exact isFalse (by rintro ⟨p, hp, _⟩; exact Option.noConfusion hp)
  | some q =>
    by_cases h : tick < q.1
    · exact isTrue ⟨q, rfl, h⟩
    · exact isFalse (by rintro ⟨p, hp, hlt⟩; exact h (Option.some_inj.mp hp ▸ hlt))

theorem wakeSleep_of_early (reg : SleepRegistry) (tick : Nat)
    (h : earlyReturnFires reg tick) : wakeSleep reg tick = (reg, []) := by
  obtain ⟨p, hp, hlt⟩ := h
  cases reg with
  | nil => exact Option.noConfusion hp
  | cons q rest =>
    obtain rfl : q = p := Option.some_inj.mp (by simpa [List.head?] using hp)
    simp only [wakeSleep, List.head?]
    rw [if_pos (by omega)]

theorem wakeSleep_of_not_early (reg : SleepRegistry) (tick : Nat)
    (h : ¬ earlyReturnFires reg tick) : wakeSleep reg tick = wakeSleepGo reg tick := by
  cases reg with
  | nil => rfl
  | cons q rest =>
    have hq : ¬ tick < q.1 := fun hlt => h ⟨q, by simp [List.head?], hlt⟩
    simp only [wakeSleep, List.head?]
    rw [if_neg (by omega)]

theorem wakeSleepGo_due (reg : SleepRegistry) (tick t : Nat) (ws : List WakerId)
    (hmem : (t, ws) ∈ reg) (hdue : t ≤ tick) :
    (t, ws) ∉ (wakeSleepGo reg tick).1 ∧
      ∀ w, w ∈ ws → w ∈ (wakeSleepGo reg tick).2 := by
  constructor
  · intro hin
    have := (List.mem_filter.mp hin).2
    simp at this
    omega
  · intro w hw
    refine List.mem_flatten.mpr ⟨ws, ?_, hw⟩
    refine List.mem_map.mpr ⟨(t, ws), ?_, rfl⟩
    exact List.mem_filter.mpr ⟨hmem, by simpa using hdue⟩

theorem wakeSleepGo_future (reg : SleepRegistry) (tick t : Nat) (ws : List WakerId)
    (hmem : (t, ws) ∈ reg) (hfut : tick < t) :
    (t, ws) ∈ (wakeSleepGo reg tick).1 :=
  List.mem_filter.mpr ⟨hmem, by simpa using hfut⟩

/-- C4 amended: on every periodic clock interrupt the handler increments the
monotonic tick counter (wrapping at the `usize` width) but passes the
*pre-increment* counter value to `wake_sleep`; when the early-return guard —
which compares the registry's first key, the *largest* registered target
tick, against that value — does not fire, `wake_sleep` removes every entry
whose target tick is at or below the passed value in one bulk split and
wakes every waker of the removed entries, keeping every later entry; when
the guard fires the registry is untouched and nothing is woken. -/
theorem clock_handler_contract (s : ClockState) :
    (clockInterruptHandler s).passedTick = s.monotonic ∧
      (clockInterruptHandler s).state.monotonic = (s.monotonic + 1) % USIZE_MOD ∧
      (earlyReturnFires s.registry s.monotonic →
        (clockInterruptHandler s).state.registry = s.registry ∧
          (clockInterruptHandler s).wakes = []) ∧
      (¬ earlyReturnFires s.registry s.monotonic →
        ∀ t ws, (t, ws) ∈ s.registry →
          (t ≤ s.monotonic →
            (t, ws) ∉ (clockInterruptHandler s).state.registry ∧
              ∀ w, w ∈ ws → w ∈ (clockInterruptHandler s).wakes) ∧
          (s.monotonic < t → (t, ws) ∈ (clockInterruptHandler s).state.registry)) := by
  refine ⟨rfl, rfl, fun he => ?_, fun hne => ?_⟩
  · have hw := wakeSleep_of_early s.registry s.monotonic he
    constructor
    · show (wakeSleep s.registry s.monotonic).1 = s.registry
      rw [hw]
    · show (wakeSleep s.registry s.monotonic).2 = []
      rw [hw]
  · have hw := wakeSleep_of_not_early s.registry s.monotonic hne
    intro t ws hmem
    constructor
    · intro hdue
      have hgo := wakeSleepGo_due s.registry s.monotonic t ws hmem hdue
      constructor
      · show (t, ws) ∉ (wakeSleep s.registry s.monotonic).1
        rw [hw]
        exact hgo.1
      · intro w hwmem
        show w ∈ (wakeSleep s.registry s.monotonic).2
        rw [hw]
        exact hgo.2 w hwmem
    · intro hfut
      show (t, ws) ∈ (wakeSleep s.registry s.monotonic).1
      rw [hw]
      exact wakeSleepGo_future s.registry s.monotonic t ws hmem hfut

/-! ## SleepFuture (src/kernel/src/util/async/sleep_future.rs, lines 25-93)

A `Duration` is carried as its total length in nanoseconds.
`dur.as_secs_f64() * TIMER_FREQ as f64` (with `TIMER_FREQ = 8192` from
src/kernel/src/rtc.rs) cast to `usize` is embedded as the exact truncation
`nanos * 8192 / 10 ^ 9`.  `as_secs_f64` is the rounded sum
`secs as f64 + (nanos as f64) / 1e9`, so for multi-second durations the
rounding of the sum can absorb the sub-second part entirely and the exact
truncation is not faithful to the `f64` computation.  For sub-second
durations (`secs = 0`) it is: the `f64` value is then
`fl(nanos / 10 ^ 9) * 2 ^ 13` — one correctly rounded division, and the
multiplication by a power of two is exact — whose absolute distance from the
real product is below `8192 * 2 ^ (-53) < 10 ^ (-12)`; non-integer values of
the real product `16 * nanos / 5 ^ 9` lie at distance at least
`5 ^ (-9) > 5 * 10 ^ (-7)` from every integer, and integer values arise only
when `5 ^ 9` divides `nanos`, where `nanos / 10 ^ 9 = (nanos / 5 ^ 9) / 2 ^ 9`
is a small dyadic rational the division returns exactly — so the two
truncations agree on all of `nanos < 10 ^ 9`.  The theorems below about this
conversion therefore constrain `nanos` below `NANOS_PER_SEC`. -/

def TIMER_FREQ : Nat := 8192

def NANOS_PER_SEC : Nat := 1000000000

/-- The exact truncation `nanos * 8192 / 10 ^ 9`: the value of
`(dur.as_secs_f64() * TIMER_FREQ as f64) as usize` for a duration of `nanos`
nanoseconds whenever `nanos < NANOS_PER_SEC` (the provably faithful domain,
see above); for longer durations the rounded `f64` sum can compute a
different tick count. -/
def durationTicks (nanos : Nat) : Nat :=
  nanos * TIMER_FREQ / NANOS_PER_SEC

structure SleepFuture where
  endTick : Nat
  registered : Bool
deriving DecidableEq

/-- Embeds `SleepFuture::new` called when the monotonic counter reads
`start`.  The source computes `ticks as usize - 1`; with overflow checks the
subtraction panics when the truncated product is `0`, which `none` models.
Otherwise `end_tick = start.wrapping_add(ticks)`. -/
def SleepFuture.new (nanos : Nat) (start : Nat) : Option SleepFuture :=
  let ticks := durationTicks nanos
  if ticks = 0 then none
  else some { endTick := (start + (ticks - 1)) % USIZE_MOD, registered := false }

/-- C10: for every duration strictly shorter than one tick period — so the
truncated product `duration_in_seconds * TIMER_FREQ` is zero — the
`ticks as usize - 1` subtraction in `SleepFuture::new` underflows `usize`
and construction panics under overflow checking. -/
theorem sleep_new_underflows_below_one_tick (nanos start : Nat)
    (h : nanos * TIMER_FREQ < NANOS_PER_SEC) :
    durationTicks nanos = 0 ∧ SleepFuture.new nanos start = none := by
  have ht : durationTicks nanos = 0 := Nat.div_eq_of_lt h
  exact ⟨ht, by simp [SleepFuture.new, ht]⟩

theorem sleep_new_underflows_below_one_tick_witness :
    1000 * TIMER_FREQ < NANOS_PER_SEC ∧
      (durationTicks 1000 = 0 ∧ SleepFuture.new 1000 0 = none) :=
  ⟨by decide, sleep_new_underflows_below_one_tick 1000 0 (by decide)⟩

/-- Embeds `register_sleep`: `service.entry(Reverse(tick)).or_default().push(waker)`
on the association list in `Reverse`-ascending (tick-descending) iteration
order — push onto an existing entry for `tick`, or insert a fresh singleton
entry at its ordered position. -/
def registerSleep (reg : SleepRegistry) (tick : Nat) (w : WakerId) : SleepRegistry :=
  match reg with
  | [] => [(tick, [w])]
  | (k, ws) :: rest =>
    if k = tick then (k, ws ++ [w]) :: rest
    else if k < tick then (tick, [w]) :: (k, ws) :: rest
    else (k, ws) :: registerSleep rest tick w

/-- Embeds `SleepFuture::poll`: load the monotonic counter into `mnTime`; if
it has reached `end_tick`, report ready; otherwise register
`end_tick → waker` once (guarded by the `registered` flag) and report
pending.  Returns (readiness, updated future, updated registry). -/
def SleepFuture.poll (f : SleepFuture) (mnTime : Nat) (w : WakerId)
    (reg : SleepRegistry) : Bool × SleepFuture × SleepRegistry :=
  if f.endTick ≤ mnTime then (true, f, reg)
  else if f.registered then (false, f, reg)
  else (false, { f with registered := true }, registerSleep reg f.endTick w)

/-- The bound the specification states for `sleep`:
`ceil(d / tick_period) - 1 = ceil(d * TIMER_FREQ) - 1` ticks. -/
def specSleepBound (nanos : Nat) : Nat :=
  (nanos * TIMER_FREQ + (NANOS_PER_SEC - 1)) / NANOS_PER_SEC - 1

/-- C5 counterexample: a 1 ms sleep started at counter 0.  The truncated
product is `8.192 ↦ 8`, so `end_tick = 7` and the future is ready once the
counter has advanced by 7 ticks — strictly before the claimed lower bound
`ceil(8.192) - 1 = 8`. -/
theorem sleep_ready_before_spec_bound :
    SleepFuture.new 1000000 0 = some { endTick := 7, registered := false } ∧
      (SleepFuture.poll { endTick := 7, registered := false } 7 0 []).1 = true ∧
      7 < specSleepBound 1000000 := by
  decide

/-- C5 amended: for a sub-second duration of `nanos` nanoseconds — the
domain on which the exact embedding of the `f64` conversion is provably
faithful (see the section comment); it contains the counterexample input —
that is at least one tick long, with no counter wraparound, a sleep started
at counter `start` polls ready exactly once the counter has advanced by
`durationTicks nanos - 1` ticks beyond `start` — only at or after that
point, and never before. -/
theorem sleep_ready_iff_trunc_bound (nanos start cur w : Nat) (reg : SleepRegistry)
    (f : SleepFuture) (h0 : nanos < NANOS_PER_SEC) (h1 : 1 ≤ durationTicks nanos)
    (h2 : start + durationTicks nanos ≤ USIZE_MOD)
    (hf : SleepFuture.new nanos start = some f) :
    ((SleepFuture.poll f cur w reg).1 = true ↔
      start + (durationTicks nanos - 1) ≤ cur) := by
  have hne : ¬ durationTicks nanos = 0 := by omega
  have hlt : start + (durationTicks nanos - 1) < USIZE_MOD := by omega
  have hfe : f = { endTick := start + (durationTicks nanos - 1), registered := false } := by
    have := hf
    simp only [SleepFuture.new, hne, if_false] at this
    rw [Nat.mod_eq_of_lt hlt] at this
    exact (Option.some_inj.mp this).symm
  subst hfe
  by_cases hc : start + (durationTicks nanos - 1) ≤ cur
  · simp [SleepFuture.poll, hc]
  · simp [SleepFuture.poll, hc]

theorem sleep_ready_iff_trunc_bound_witness :
    (1000000 < NANOS_PER_SEC ∧ 1 ≤ durationTicks 1000000 ∧
        0 + durationTicks 1000000 ≤ USIZE_MOD ∧
        SleepFuture.new 1000000 0 = some { endTick := 7, registered := false }) ∧
      ((SleepFuture.poll { endTick := 7, registered := false } 8 0 []).1 = true ↔
        0 + (durationTicks 1000000 - 1) ≤ 8) :=
  ⟨⟨by decide, by decide, by decide, by decide⟩,
    sleep_ready_iff_trunc_bound 1000000 0 8 0 [] _ (by decide) (by decide)
      (by decide) (by decide)⟩

/-- C6 counterexample: a first poll that already observes
`current_tick ≥ end_tick` (here both are 5, the `registered` flag still
`false`) reports ready and performs no registration at all, contradicting
the claim that the first poll registers and reports not-ready. -/
theorem sleep_first_poll_can_skip_registration :
    SleepFuture.poll { endTick := 5, registered := false } 5 0 [] =
      (true, { endTick := 5, registered := false }, []) ∧ (5 : Nat) ≤ 5 := by
  decide

/-- Runs a sequence of polls of one `SleepFuture` instance, threading the
future and the registry, and returning the readiness reported by each poll
together with how many of the polls performed a registration. -/
def runPolls (f : SleepFuture) (reg : SleepRegistry) (w : WakerId) :
    List Nat → SleepFuture × SleepRegistry × List Bool × Nat
  | [] => (f, reg, [], 0)
  | c :: cs =>
    let r := SleepFuture.poll f c w reg
    let rest := runPolls r.2.1 r.2.2 w cs
    (rest.1, rest.2.1, r.1 :: rest.2.2.1,
      (if !f.registered && r.2.1.registered then 1 else 0) + rest.2.2.2)

/-- C6 amended: across every sequence of polls of one instance whose flag
starts clear, every poll — first or later — reports ready exactly when the
counter value it observes has reached `end_tick`, the instance registers at
most once in its lifetime, and it registers exactly once when some poll
observes the counter below `end_tick`. -/
theorem sleep_poll_sequence_contract (f : SleepFuture) (reg : SleepRegistry)
    (w : WakerId) (cs : List Nat) :
    (runPolls f reg w cs).2.2.1 = cs.map (fun c => decide (f.endTick ≤ c)) ∧
      (runPolls f reg w cs).2.2.2 =
        (if f.registered = false ∧ ∃ x ∈ cs, x < f.endTick then 1 else 0) ∧
      (runPolls f reg w cs).1.endTick = f.endTick := by
  induction cs generalizing f reg with
  | nil => simp [runPolls]
  | cons c cs ih =>
    cases hfr : f.registered with
    | true =>
      have hpoll : SleepFuture.poll f c w reg = (decide (f.endTick ≤ c), f, reg) := by
        by_cases hr : f.endTick ≤ c <;> simp [SleepFuture.poll, hr, hfr]
      obtain ⟨ih1, ih2, ih3⟩ := ih f reg
      refine ⟨?_, ?_, ?_⟩
      · simp [runPolls, hpoll, ih1]
      · simp [runPolls, hpoll, ih2, hfr]
      · simp [runPolls, hpoll, ih3]
    | false =>
      by_cases hr : f.endTick ≤ c
      · have hpoll : SleepFuture.poll f c w reg = (true, f, reg) := by
          simp [SleepFuture.poll, hr]
        obtain ⟨ih1, ih2, ih3⟩ := ih f reg
        have hnc : ¬ c < f.endTick := Nat.not_lt.mpr hr
        refine ⟨?_, ?_, ?_⟩
        · simp [runPolls, hpoll, ih1, hr]
        · simp [runPolls, hpoll, ih2, hfr, hnc]
        · simp [runPolls, hpoll, ih3]
      · have hpoll : SleepFuture.poll f c w reg =
            (false, { f with registered := true }, registerSleep reg f.endTick w) := by
          simp [SleepFuture.poll, hr, hfr]
        obtain ⟨ih1, ih2, ih3⟩ :=
          ih { f with registered := true } (registerSleep reg f.endTick w)
        have hc : c < f.endTick := Nat.not_le.mp hr
        refine ⟨?_, ?_, ?_⟩
        · simp [runPolls, hpoll, ih1, hr]
        · simp [runPolls, hpoll, ih2, hfr, hc]
        · simp [runPolls, hpoll, ih3]

/-! ## Executor run loop (src/kernel/src/task/executor.rs, lines 58-75; the
same pop/lookup/poll shape appears in src/src/task/executor.rs, lines 42-60)

One iteration of `while let Some(task_id) = task_queue.pop()` is embedded.
TaskIds are `Nat`; the task table `BTreeMap<TaskId, (Task, Waker)>` becomes
an association list keyed by id (the boxed computation abstracted to a `Nat`
payload); a task's single advancement is abstracted by the oracle
`pollCompletes`, telling whether this poll reports completion. -/

abbrev TaskId := Nat

abbrev TaskTable := List (TaskId × Nat)

/-- Removal `BTreeMap::remove(&task_id)` on the association list. -/
def removeTask (t : TaskTable) (id : TaskId) : TaskTable :=
  t.filter (fun e => decide (e.1 ≠ id))

structure IterOut where
  queue : List TaskId
  table : TaskTable
  skippedDueToMissing : Bool
  polled : Option TaskId
  tableAtPoll : Option TaskTable
deriving DecidableEq

/-- Embeds one iteration of the executor's ready loop: pop `task_id`; if the
table lookup fails, log at debug level and skip; otherwise poll the task via
the `get_mut` borrow — the entry stays in the table while the task runs, so
`tableAtPoll` (the table contents at the instant of the poll) is the
untouched table — then remove the entry on `Poll::Ready` and leave the table
as is on `Poll::Pending`.  `none` is the loop exiting on an empty queue. -/
def runIteration (pollCompletes : TaskId → Bool) (queue : List TaskId)
    (table : TaskTable) : Option IterOut :=
  match queue with
  | [] => none
  | id :: rest =>
    match table.lookup id with
    | none =>
      some { queue := rest, table := table, skippedDueToMissing := true,
             polled := none, tableAtPoll := none }
    | some _ =>
      if pollCompletes id then
        some { queue := rest, table := removeTask table id,
               skippedDueToMissing := false, polled := some id,
               tableAtPoll := some table }
      else
        some { queue := rest, table := table, skippedDueToMissing := false,
               polled := some id, tableAtPoll := some table }

theorem removeTask_lookup_self (t : TaskTable) (id : TaskId) :
    (removeTask t id).lookup id = none := by
  induction t with
  | nil => rfl
  | cons e rest ih =>
    by_cases he : e.1 = id
    · simpa [removeTask, he] using ih
    · simpa [removeTask, List.lookup, he, beq_eq_false_iff_ne.mpr (Ne.symm he)] using ih

theorem removeTask_lookup_other (t : TaskTable) (id j : TaskId) (hj : j ≠ id) :
    (removeTask t id).lookup j = t.lookup j := by
  have hbj : (j == id) = false := beq_eq_false_iff_ne.mpr hj
  induction t with
  | nil => rfl
  | cons e rest ih =>
    by_cases he : e.1 = id
    · simpa [removeTask, he, List.lookup, hbj] using ih
    · by_cases hje : j = e.1
      · simp [removeTask, he, List.lookup, hje]
      · simpa [removeTask, he, List.lookup, beq_eq_false_iff_ne.mpr hje] using ih

/-- C8 counterexample: a present task is polled with its entry still in the
table.  With task 3 present and a pending poll, the iteration's
`tableAtPoll` is the full table, in which id 3 is still found — the entry
was never removed before the poll (and, being never removed, is not
re-inserted afterwards: the table is simply left unchanged). -/
theorem executor_polls_task_in_place :
    runIteration (fun _ => false) [3] [(3, 0)] =
      some { queue := [], table := [(3, 0)], skippedDueToMissing := false,
             polled := some 3, tableAtPoll := some [(3, 0)] } ∧
      ([(3, 0)] : TaskTable).lookup 3 = some 0 := by
  decide

/-- C8 amended: in every iteration of the run loop, a popped id absent from
the table is skipped with only a debug log and no poll; a present id is
polled exactly once with its entry still in the table at poll time; a poll
reporting completion leaves the id unmapped afterwards; a poll reporting
pending leaves the table unchanged, the task still keyed by its id; other
ids' entries are never touched. -/
theorem executor_iteration_contract (pc : TaskId → Bool) (id : TaskId)
    (rest : List TaskId) (table : TaskTable) (out : IterOut)
    (h : runIteration pc (id :: rest) table = some out) :
    out.queue = rest ∧
      (table.lookup id = none →
        out.skippedDueToMissing = true ∧ out.polled = none ∧ out.table = table) ∧
      ((∃ v, table.lookup id = some v) →
        out.polled = some id ∧ out.skippedDueToMissing = false ∧
          out.tableAtPoll = some table ∧
          (pc id = true → out.table.lookup id = none) ∧
          (pc id = false → out.table = table) ∧
          (∀ j, j ≠ id → out.table.lookup j = table.lookup j)) := by
  cases hl : table.lookup id with
  | none =>
    simp only [runIteration, hl] at h
    obtain rfl := Option.some_inj.mp h
    refine ⟨rfl, fun _ => ⟨rfl, rfl, rfl⟩, fun hv => ?_⟩
    obtain ⟨v, hv⟩ := hv
    exact Option.noConfusion hv
  | some v =>
    simp only [runIteration, hl] at h
    cases hpc : pc id with
    | false =>
      rw [hpc] at h
      simp only [Bool.false_eq_true, if_false] at h
      obtain rfl := Option.some_inj.mp h
      refine ⟨rfl, fun hn => ?_, fun _ => ?_⟩
      · exact Option.noConfusion hn
      · exact ⟨rfl, rfl, rfl, fun ht => Bool.noConfusion ht,
          fun _ => rfl, fun j _ => rfl⟩
    | true =>
      rw [hpc] at h
      simp only [if_true] at h
      obtain rfl := Option.some_inj.mp h
      refine ⟨rfl, fun hn => ?_, fun _ => ?_⟩
      · exact Option.noConfusion hn
      · exact ⟨rfl, rfl, rfl, fun _ => removeTask_lookup_self table id,
          fun hf => Bool.noConfusion hf,
          fun j hj => removeTask_lookup_other table id j hj⟩

theorem executor_iteration_contract_witness :
    runIteration (fun _ => true) [1] [(1, 5)] =
        some { queue := [], table := [], skippedDueToMissing := false,
               polled := some 1, tableAtPoll := some [(1, 5)] } ∧
      ({ queue := [], table := [], skippedDueToMissing := false,
          polled := some 1, tableAtPoll := some [(1, 5)] } : IterOut).queue = [] ∧
        (([(1, 5)] : TaskTable).lookup 1 = none →
          ({ queue := [], table := [], skippedDueToMissing := false,
              polled := some 1, tableAtPoll := some [(1, 5)] } : IterOut).skippedDueToMissing = true ∧
            ({ queue := [], table := [], skippedDueToMissing := false,
                polled := some 1, tableAtPoll := some [(1, 5)] } : IterOut).polled = none ∧
            ({ queue := [], table := [], skippedDueToMissing := false,
                polled := some 1, tableAtPoll := some [(1, 5)] } : IterOut).table = [(1, 5)]) ∧
        ((∃ v, ([(1, 5)] : TaskTable).lookup 1 = some v) →
          ({ queue := [], table := [], skippedDueToMissing := false,
              polled := some 1, tableAtPoll := some [(1, 5)] } : IterOut).polled = some 1 ∧
            ({ queue := [], table := [], skippedDueToMissing := false,
                polled := some 1, tableAtPoll := some [(1, 5)] } : IterOut).skippedDueToMissing = false ∧
            ({ queue := [], table := [], skippedDueToMissing := false,
                polled := some 1, tableAtPoll := some [(1, 5)] } : IterOut).tableAtPoll = some [(1, 5)] ∧
            ((fun (_ : TaskId) => true) 1 = true →
              ({ queue := [], table := [], skippedDueToMissing := false,
                  polled := some 1, tableAtPoll := some [(1, 5)] } : IterOut).table.lookup 1 = none) ∧
            ((fun (_ : TaskId) => true) 1 = false →
              ({ queue := [], table := [], skippedDueToMissing := false,
                  polled := some 1, tableAtPoll := some [(1, 5)] } : IterOut).table = [(1, 5)]) ∧
            (∀ j, j ≠ 1 →
              ({ queue := [], table := [], skippedDueToMissing := false,
                  polled := some 1, tableAtPoll := some [(1, 5)] } : IterOut).table.lookup j =
                ([(1, 5)] : TaskTable).lookup j)) :=
  ⟨by decide, executor_iteration_contract (fun _ => true) 1 [] [(1, 5)] _ (by decide)⟩

/-! ## WakerList (src/src/util/async/waker_list.rs)

`WakerListInner` holds the `id` counter (`u64`, wrapping) and the
`BTreeMap<u64, Waker>` of registered wakers, embedded as an association list
in ascending key order. -/

structure WakerListInner where
  nextId : Nat
  wakers : List (Nat × WakerId)
deriving DecidableEq

/-- Embeds `WakerList::notify_one`: `inner.wakers.iter().next()` yields the
entry with the smallest key, whose waker is invoked by reference; the map is
not modified.  Returns (state after the call, invoked wakers). -/
def WakerList.notifyOne (s : WakerListInner) : WakerListInner × List WakerId :=
  match s.wakers.head? with
  | some (_, w) => (s, [w])
  | none => (s, [])

/-- Embeds `WakerList::handle`: hand out the current counter value as the
handle key and advance the counter with `overflowing_add`. -/
def WakerList.handle (s : WakerListInner) : Nat × WakerListInner :=
  (s.nextId, { s with nextId := (s.nextId + 1) % USIZE_MOD })

/-- Insertion `BTreeMap::insert` for `WakerListHandle::register`, keeping ascending
key order and replacing an existing binding of the key. -/
def insertWaker (m : List (Nat × WakerId)) (k : Nat) (w : WakerId) :
    List (Nat × WakerId) :=
  match m with
  | [] => [(k, w)]
  | (a, b) :: rest =>
    if k < a then (k, w) :: (a, b) :: rest
    else if k = a then (k, w) :: rest
    else (a, b) :: insertWaker rest k w

/-- Embeds `WakerListHandle::register`. -/
def WakerListHandle.register (s : WakerListInner) (hid : Nat) (w : WakerId) :
    WakerListInner :=
  { s with wakers := insertWaker s.wakers hid w }

/-- Embeds `WakerListHandle::drop`: `inner.wakers.remove(&self.id)`. -/
def WakerListHandle.drop (s : WakerListInner) (hid : Nat) : WakerListInner :=
  { s with wakers := s.wakers.filter (fun e => decide (e.1 ≠ hid)) }

/-- C9 counterexample: `notify_one` on a list holding one registered waker
invokes that waker but leaves its entry in the map — the registration is
not removed (removal only happens when the handle is dropped). -/
theorem notify_one_does_not_remove :
    WakerList.notifyOne { nextId := 1, wakers := [(0, 7)] } =
      ({ nextId := 1, wakers := [(0, 7)] }, [7]) := by
  decide

/-- C9 amended: `notify_one` never modifies the list; with at least one
registrant it invokes exactly one recorded waker (the one under the smallest
handle key), and with zero registrants it is a no-op that invokes nothing
and does not panic. -/
theorem notify_one_contract (s : WakerListInner) :
    (WakerList.notifyOne s).1 = s ∧
      (WakerList.notifyOne s).2.length = (if s.wakers.isEmpty then 0 else 1) ∧
      (∀ w, w ∈ (WakerList.notifyOne s).2 → ∃ k, (k, w) ∈ s.wakers) := by
  rcases s with ⟨n, ws⟩
  cases ws with
  | nil => simp [WakerList.notifyOne]
  | cons e rest =>
    refine ⟨rfl, by simp [WakerList.notifyOne], ?_⟩
    intro w hw
    simp [WakerList.notifyOne] at hw
    exact ⟨e.1, by simp [hw]⟩

end ZoomOS
